import Mathlib

/-!
Verification of the collection classification and reporting pipeline of
`binder.py` (fverdoja/ct2binder) against its natural-language specification.

The embedding follows the source closely:
* `Color` models the `Color` enum (lines 20-40) with its `code`/`format`
  attributes, iteration order, and the `all` classmethod.
* `get_config` models the configuration construction of lines 50-57
  (the YAML file read is replaced by explicit arguments).
* `RawRecord`/`Item` model one row of the DataFrame before and after the
  normalization of lines 130-152; `none` models a NaN cell produced by
  `pd.json_normalize` for an absent vendor field.
* `get_expansion` and `applyGetExpansion` model lines 70-76 and the
  per-row `apply` of line 168, together with the trace of external calls.
* `processColors`/`run` model the report loop of lines 154-189.
-/

/-- The eight color categories of the `Color` enum (`binder.py` lines 20-28),
in declaration order. -/
inductive Color where
  | MULTICOLOR
  | WHITE
  | BLUE
  | BLACK
  | RED
  | GREEN
  | ARTIFACTS
  | LANDS
deriving DecidableEq, Fintype

/-- The `code` attribute of each `Color` member (first tuple component of the
enum values, lines 21-31). -/
def Color.code : Color → String
  | .MULTICOLOR => "M"
  | .WHITE => "W"
  | .BLUE => "U"
  | .BLACK => "B"
  | .RED => "R"
  | .GREEN => "G"
  | .ARTIFACTS => "C"
  | .LANDS => "L"

/-- The `format` attribute of each `Color` member (second tuple component,
presentation style only). -/
def Color.format : Color → String
  | .MULTICOLOR => "dark_goldenrod"
  | .WHITE => "wheat1"
  | .BLUE => "blue"
  | .BLACK => "purple"
  | .RED => "red"
  | .GREEN => "green"
  | .ARTIFACTS => "orange4"
  | .LANDS => "steel_blue"

/-- `list(Color)`: a Python enum iterates its members in declaration order. -/
def Color.list : List Color :=
  [.MULTICOLOR, .WHITE, .BLUE, .BLACK, .RED, .GREEN, .ARTIFACTS, .LANDS]

/-- `Color.all` (lines 34-40): the codes of all members, skipping MULTICOLOR
when `excludeMulti` is set. -/
def Color.all (excludeMulti : Bool) : List String :=
  (Color.list.filter (fun color => !(excludeMulti && color == Color.MULTICOLOR))).map
    Color.code

/-- The `Config` dataclass (lines 43-47). -/
structure Config where
  ct_token : String
  price_cents_threshold : Nat
  colors : List Color
deriving DecidableEq

/-- `get_config` (lines 50-57).  The YAML file read is replaced by the three
field values; the interesting logic is the construction of `colors`: the
comprehension `[color for color in list(Color) if color.code in config_dict["colors"]]`
keeps the enum members, in enum declaration order, whose code occurs in the
configured list of code strings. -/
def get_config (ct_token : String) (price_cents_threshold : Nat)
    (colors : List String) : Config :=
  { ct_token := ct_token
    price_cents_threshold := price_cents_threshold
    colors := Color.list.filter (fun color => colors.contains color.code) }

/-- One raw inventory record as flattened by `pd.json_normalize` (line 131),
with the `properties_hash.` prefix already stripped and `name_en`/`mtg_language`
renamed as in lines 136-145.  A `none` field models a NaN cell, i.e. the vendor
record did not carry that key. -/
structure RawRecord where
  quantity : Nat
  name : String
  blueprint_id : Nat
  price_cents : Option Nat
  language : String
  mtg_foil : Option Bool
  mtg_card_colors : Option String
deriving DecidableEq

/-- One normalized row (after lines 130-152): the added `foil` display column
and the upper-cased `mtg_card_colors` column.  `price_cents` stays optional
because a record missing the price survives normalization with a NaN price. -/
structure Item where
  quantity : Nat
  name : String
  blueprint_id : Nat
  price_cents : Option Nat
  language : String
  foil : Option String
  mtg_card_colors : String
deriving DecidableEq

/-- Lines 149-151: `replace([True, False], [":heavy_check_mark:", ""])`.
A NaN cell (absent `mtg_foil`) matches neither `True` nor `False` and is left
as NaN (`none`). -/
def foilReplace : Option Bool → Option String
  | some true => some ":heavy_check_mark:"
  | some false => some ""
  | none => none

/-- Python `str.upper()` as used on the single-letter color codes
(line 152, `.str.upper()`): upper-case every character. -/
def upper (s : String) : String :=
  String.mk (s.data.map Char.toUpper)

/-- Insert a record into a price-descending list, keeping it after every
record whose price is at least as large (stable placement of equal keys). -/
def insertByPriceDesc (r : RawRecord) : List RawRecord → List RawRecord
  | [] => [r]
  | x :: xs =>
    if r.price_cents.getD 0 ≤ x.price_cents.getD 0 then x :: insertByPriceDesc r xs
    else r :: x :: xs

/-- Insertion sort of records by price, descending. -/
def sortSomeDesc : List RawRecord → List RawRecord
  | [] => []
  | r :: rs => insertByPriceDesc r (sortSomeDesc rs)

/-- `.sort_values("price_cents", ascending=False)` (line 132): the rows that
have a price, in descending price order, followed by the NaN-price rows
(`na_position="last"`, the pandas default).  pandas' default `kind="quicksort"`
leaves the relative order of rows with equal keys unspecified; this model fixes
the stable order, and no theorem below relies on the order of equal keys.
On an empty inventory the source raises a `KeyError` instead, because
`pd.json_normalize([])` yields a DataFrame with no `price_cents` column; the
model is total, and every concrete witness and counterexample below therefore
uses a non-empty inventory, where the source reaches this sort with the column
present. -/
def sort_values (raws : List RawRecord) : List RawRecord :=
  sortSomeDesc (raws.filter (fun r => r.price_cents.isSome)) ++
    raws.filter (fun r => r.price_cents.isNone)

/-- The per-row content of the normalized DataFrame: renamed fields, the `foil`
display column of lines 149-151 and the upper-cased color column of line 152.
`cc` is the (non-NaN) content of the `mtg_card_colors` cell. -/
def toItem (r : RawRecord) (cc : String) : Item :=
  { quantity := r.quantity
    name := r.name
    blueprint_id := r.blueprint_id
    price_cents := r.price_cents
    language := r.language
    foil := foilReplace r.mtg_foil
    mtg_card_colors := upper cc }

/-- Lines 130-152: sort by price descending, then
`.dropna(subset=["properties_hash.mtg_card_colors"])` drops exactly the rows
whose color cell is NaN, then the column transforms of `toItem`.  There is no
validation step anywhere in this pipeline: it is total. -/
def normalizeRecords (raws : List RawRecord) : List Item :=
  (sort_values raws).filterMap (fun r => r.mtg_card_colors.map (toItem r))

/-- The `price_cents >= @price_thresh` condition of the queries at lines
158-167.  A NaN price (missing `price_cents`) compares false against the
threshold, as NaN does in pandas. -/
def passesThreshold (it : Item) (thresh : Nat) : Bool :=
  match it.price_cents with
  | some p => decide (thresh ≤ p)
  | none => false

/-- The per-color `query` of lines 156-167: for a non-MULTICOLOR color the rows
whose color column equals the color's code, for MULTICOLOR the rows whose color
column is not among `Color.all(exclude_multi=True)`; both intersected with the
price threshold condition. -/
def bucketRows (items : List Item) (thresh : Nat) (color : Color) : List Item :=
  if color ≠ Color.MULTICOLOR then
    items.filter (fun it => it.mtg_card_colors == color.code && passesThreshold it thresh)
  else
    items.filter (fun it =>
      !((Color.all true).contains it.mtg_card_colors) && passesThreshold it thresh)

/-- `get_expansion` (lines 70-76).  `lookup` models the HTTP GET of
`BLUEPRINT_URL + blueprint_id` returning the response's `expansion_id`
(`none` models a non-success response, on which `raise_for_status` throws);
`expansions` models the pre-fetched table (`none` models the `KeyError` of a
missing key).  Every invocation performs exactly one external blueprint call:
there is no cache of any kind in the source. -/
def get_expansion (blueprint_id : Nat) (lookup : Nat → Option Nat)
    (expansions : Nat → Option String) : Option String :=
  match lookup blueprint_id with
  | none => none
  | some exp_id => expansions exp_id

/-- Line 168, `query["blueprint_id"].apply(get_expansion_f)`: call
`get_expansion` once per row, in row order, aborting at the first exception.
The second component is the trace of blueprint ids sent to the external
service, one entry per call actually performed. -/
def applyGetExpansion (lookup : Nat → Option Nat) (expansions : Nat → Option String) :
    List Nat → Option (List String) × List Nat
  | [] => (some [], [])
  | b :: rest =>
    match get_expansion b lookup expansions with
    | none => (none, [b])
    | some s =>
      let res := applyGetExpansion lookup expansions rest
      (res.1.map (fun l => s :: l), b :: res.2)

/-- One rendered per-color table together with its caption numbers
(lines 169-186): the rows paired with their resolved expansion names,
`len(query)` and `query["price_cents"].sum()`. -/
structure CategoryReport where
  color : Color
  rows : List (Item × String)
  item_count : Nat
  total_value_cents : Nat
deriving DecidableEq

/-- Build the report of one loop iteration from the bucket rows and the
resolved expansion names. -/
def mkReport (color : Color) (rows : List Item) (names : List String) :
    CategoryReport :=
  { color := color
    rows := rows.zip names
    item_count := rows.length
    total_value_cents := (rows.map (fun it => it.price_cents.getD 0)).sum }

/-- The `for color in colors` loop of lines 156-189, restricted to the data it
produces: one `CategoryReport` per enabled color, in loop order, or `none` if
an expansion resolution raised.  The second component is the concatenated trace
of all external blueprint lookups the loop performed. -/
def processColors (items : List Item) (thresh : Nat) (lookup : Nat → Option Nat)
    (expansions : Nat → Option String) :
    List Color → Option (List CategoryReport) × List Nat
  | [] => (some [], [])
  | c :: cs =>
    let rows := bucketRows items thresh c
    let res := applyGetExpansion lookup expansions (rows.map (fun it => it.blueprint_id))
    match res.1 with
    | none => (none, res.2)
    | some names =>
      let rest := processColors items thresh lookup expansions cs
      (rest.1.map (fun reps => mkReport c rows names :: reps), res.2 ++ rest.2)

/-- `main` (lines 102-194) without the I/O glue: normalize the raw records and
run the per-color loop over the configured colors. -/
def run (config : Config) (lookup : Nat → Option Nat)
    (expansions : Nat → Option String) (raws : List RawRecord) :
    Option (List CategoryReport) × List Nat :=
  processColors (normalizeRecords raws) config.price_cents_threshold lookup expansions
    config.colors

/-- The `total_items` accumulation of line 188: the sum of the per-report row
counts. -/
def grandTotalItems (reps : List CategoryReport) : Nat :=
  (reps.map (fun rep => rep.item_count)).sum

/-- The exact integer grand value in cents that the specification requires of
the run.  The source instead accumulates `query["price_cents"].sum() / 100`
into a binary floating-point euro total (lines 155 and 189). -/
def exactGrandValueCents (reps : List CategoryReport) : Nat :=
  (reps.map (fun rep => rep.total_value_cents)).sum

/-- Concrete records and collaborator tables used by witnesses and
counterexamples below. -/
def rA : RawRecord := ⟨1, "Card A", 42, some 500, "en", some false, some "w"⟩

def rB : RawRecord := ⟨1, "Card B", 42, some 300, "it", some true, some "W"⟩

def rNoPrice : RawRecord := ⟨1, "Card C", 43, none, "en", some false, some "U"⟩

def rNoFoil : RawRecord := ⟨1, "Card D", 5, some 100, "en", none, some "G"⟩

def rW1 : RawRecord := ⟨1, "Penny W", 11, some 1, "en", some false, some "W"⟩

def rU2 : RawRecord := ⟨1, "Penny U", 12, some 2, "en", some false, some "U"⟩

def lookupA : Nat → Option Nat := fun b => if b ≤ 100 then some 7 else none

def expTableA : Nat → Option String := fun e => if e == 7 then some "Alpha" else none

/-! ## Helper lemmas about the embedding -/

theorem mem_insertByPriceDesc {x r : RawRecord} {l : List RawRecord} :
    x ∈ insertByPriceDesc r l ↔ x = r ∨ x ∈ l := by
  induction l with
  | nil => simp [insertByPriceDesc]
  | cons y ys ih =>
    simp only [insertByPriceDesc]
    split
    · simp only [List.mem_cons, ih]
      tauto
    · simp only [List.mem_cons]

theorem mem_sortSomeDesc {x : RawRecord} {l : List RawRecord} :
    x ∈ sortSomeDesc l ↔ x ∈ l := by
  induction l with
  | nil => simp [sortSomeDesc]
  | cons y ys ih => simp [sortSomeDesc, mem_insertByPriceDesc, ih]

theorem mem_sort_values {x : RawRecord} {raws : List RawRecord} :
    x ∈ sort_values raws ↔ x ∈ raws := by
  simp only [sort_values, List.mem_append, mem_sortSomeDesc, List.mem_filter]
  constructor
  · rintro (⟨h, _⟩ | ⟨h, _⟩) <;> exact h
  · intro h
    cases hp : x.price_cents with
    | none => right; exact ⟨h, by simp [Option.isNone, hp]⟩
    | some p => left; exact ⟨h, by simp [Option.isSome, hp]⟩

theorem mem_normalizeRecords {raws : List RawRecord} {it : Item} :
    it ∈ normalizeRecords raws ↔
      ∃ r ∈ raws, ∃ cc, r.mtg_card_colors = some cc ∧ it = toItem r cc := by
  simp only [normalizeRecords, List.mem_filterMap, mem_sort_values,
    Option.map_eq_some']
  constructor
  · rintro ⟨r, hr, cc, hcc, hit⟩
    exact ⟨r, hr, cc, hcc, hit.symm⟩
  · rintro ⟨r, hr, cc, hcc, hit⟩
    exact ⟨r, hr, cc, hcc, hit.symm⟩

theorem passesThreshold_iff {it : Item} {thresh : Nat} :
    passesThreshold it thresh = true ↔ ∃ p, it.price_cents = some p ∧ thresh ≤ p := by
  cases h : it.price_cents with
  | none => simp [passesThreshold, h]
  | some p => simp [passesThreshold, h]

theorem mem_bucketRows {items : List Item} {thresh : Nat} {c : Color} {it : Item} :
    it ∈ bucketRows items thresh c ↔
      it ∈ items ∧ passesThreshold it thresh = true ∧
        (if c = Color.MULTICOLOR then
          ((Color.all true).contains it.mtg_card_colors) = false
         else it.mtg_card_colors = c.code) := by
  by_cases hc : c = Color.MULTICOLOR
  · simp [bucketRows, hc, List.mem_filter]
    tauto
  · simp [bucketRows, hc, List.mem_filter]
    tauto

theorem Color.code_inj : ∀ c d : Color, c.code = d.code → c = d := by decide

theorem Color.all_true_eq : Color.all true = ["W", "U", "B", "R", "G", "C", "L"] := by
  decide

theorem mem_seven_iff (s : String) :
    s ∈ (["W", "U", "B", "R", "G", "C", "L"] : List String) ↔
      ∃ c : Color, c ≠ Color.MULTICOLOR ∧ c.code = s := by
  constructor
  · intro h
    simp only [List.mem_cons, List.not_mem_nil, or_false] at h
    rcases h with rfl | rfl | rfl | rfl | rfl | rfl | rfl
    · exact ⟨Color.WHITE, by decide, rfl⟩
    · exact ⟨Color.BLUE, by decide, rfl⟩
    · exact ⟨Color.BLACK, by decide, rfl⟩
    · exact ⟨Color.RED, by decide, rfl⟩
    · exact ⟨Color.GREEN, by decide, rfl⟩
    · exact ⟨Color.ARTIFACTS, by decide, rfl⟩
    · exact ⟨Color.LANDS, by decide, rfl⟩
  · rintro ⟨c, hc, rfl⟩
    cases c
    · exact absurd rfl hc
    all_goals decide

theorem applyGetExpansion_trace {lookup : Nat → Option Nat}
    {expansions : Nat → Option String} :
    ∀ {bids : List Nat} {names : List String} {tr : List Nat},
    applyGetExpansion lookup expansions bids = (some names, tr) → tr = bids := by
  intro bids
  induction bids with
  | nil =>
    intro names tr h
    simp [applyGetExpansion] at h
    exact h.2
  | cons b rest ih =>
    intro names tr h
    simp only [applyGetExpansion] at h
    cases hg : get_expansion b lookup expansions with
    | none => rw [hg] at h; simp at h
    | some s =>
      rw [hg] at h
      cases hres : applyGetExpansion lookup expansions rest with
      | mk o t =>
        rw [hres] at h
        cases o with
        | none => simp at h
        | some l =>
          simp only [Option.map_some', Prod.mk.injEq, Option.some.injEq] at h
          rw [← h.2, ih hres]

theorem processColors_spec {items : List Item} {thresh : Nat}
    {lookup : Nat → Option Nat} {expansions : Nat → Option String} :
    ∀ {cs : List Color} {reps : List CategoryReport} {tr : List Nat},
    processColors items thresh lookup expansions cs = (some reps, tr) →
    reps.map CategoryReport.color = cs ∧
      tr = (cs.map (fun c =>
        (bucketRows items thresh c).map (fun it => it.blueprint_id))).flatten := by
  intro cs
  induction cs with
  | nil =>
    intro reps tr h
    simp [processColors] at h
    simp [h.1, h.2]
  | cons c cs ih =>
    intro reps tr h
    simp only [processColors] at h
    cases ha : applyGetExpansion lookup expansions
        ((bucketRows items thresh c).map (fun it => it.blueprint_id)) with
    | mk o1 t1 =>
      rw [ha] at h
      cases o1 with
      | none => simp at h
      | some names =>
        cases hp : processColors items thresh lookup expansions cs with
        | mk o2 t2 =>
          rw [hp] at h
          cases o2 with
          | none => simp at h
          | some reps2 =>
            simp only [Option.map_some', Prod.mk.injEq, Option.some.injEq] at h
            obtain ⟨hreps, htr⟩ := h
            obtain ⟨hcolors, htrace⟩ := ih hp
            subst hreps
            constructor
            · simp [mkReport, hcolors]
            · rw [← htr, htrace, applyGetExpansion_trace ha]
              simp

/-! ## Claim theorems -/

/-- Claim C2 counterexample: with the configured category list ["W", "M"] and a
one-record white inventory, the run produces its reports in the order
[MULTICOLOR, WHITE]: the first report's category is MULTICOLOR, not the first
configured entry "W". -/
theorem claim_report_order_cex :
    ((run (get_config "t" 0 ["W", "M"]) lookupA expTableA [rA]).1).map
        (fun reps => reps.map CategoryReport.color) =
      some [Color.MULTICOLOR, Color.WHITE] ∧
    [Color.MULTICOLOR, Color.WHITE] ≠ [Color.WHITE, Color.MULTICOLOR] := by
  constructor
  · decide
  · decide

/-- Claim C2 (amended): the reports of a successful run over a configuration
built by `get_config` follow the fixed enum declaration order of `Color.list`
restricted to the configured codes, not the configured list's own order. -/
theorem claim_report_order_amended (ct_token : String) (thresh : Nat)
    (codes : List String) (lookup : Nat → Option Nat)
    (expansions : Nat → Option String) (raws : List RawRecord)
    (reps : List CategoryReport) (tr : List Nat)
    (h : run (get_config ct_token thresh codes) lookup expansions raws =
      (some reps, tr)) :
    reps.map CategoryReport.color =
      Color.list.filter (fun c => codes.contains c.code) := by
  have h2 : processColors (normalizeRecords raws) thresh lookup expansions
      (Color.list.filter (fun c => codes.contains c.code)) = (some reps, tr) := h
  exact (processColors_spec h2).1

/-- Witness for claim_report_order_amended at a concrete successful run over a
one-record white inventory. -/
theorem claim_report_order_amended_witness :
    ([⟨Color.MULTICOLOR, [], 0, 0⟩,
      ⟨Color.WHITE, [(toItem rA "w", "Alpha")], 1, 500⟩] :
        List CategoryReport).map CategoryReport.color =
      Color.list.filter (fun c => (["W", "M"] : List String).contains c.code) :=
  claim_report_order_amended "t" 0 ["W", "M"] lookupA expTableA [rA]
    [⟨Color.MULTICOLOR, [], 0, 0⟩,
     ⟨Color.WHITE, [(toItem rA "w", "Alpha")], 1, 500⟩] [42] (by decide)

/-- Claim C10: `get_config` silently ignores unknown category codes: it is a
total function (no failure path), and a Color member is in the resulting colors
exactly when its code occurs in the configured code list, for every list,
including lists containing unknown codes. -/
theorem claim_get_config_unknown_codes (ct_token : String) (thresh : Nat)
    (codes : List String) (c : Color) :
    c ∈ (get_config ct_token thresh codes).colors ↔ c.code ∈ codes := by
  simp only [get_config, List.mem_filter]
  constructor
  · intro h
    simpa using h.2
  · intro h
    refine ⟨?_, by simpa using h⟩
    cases c <;> decide

/-- Witness for claim_get_config_unknown_codes at a concrete config whose list
holds the unknown code "X". -/
theorem claim_get_config_unknown_codes_witness :
    Color.WHITE ∈ (get_config "t" 0 ["W", "X"]).colors ↔
      Color.WHITE.code ∈ (["W", "X"] : List String) :=
  claim_get_config_unknown_codes "t" 0 ["W", "X"] Color.WHITE

/-- Claim C4: the MULTICOLOR bucket selects exactly the items whose color code
lies outside the full seven-code set W,U,B,R,G,C,L and whose price passes the
threshold; the exclusion set `Color.all(exclude_multi=True)` is that full
seven-code list and does not depend on the configuration. -/
theorem claim_multicolor_exclusion (items : List Item) (thresh : Nat) (it : Item) :
    (it ∈ bucketRows items thresh Color.MULTICOLOR ↔
      it ∈ items ∧
        it.mtg_card_colors ∉ (["W", "U", "B", "R", "G", "C", "L"] : List String) ∧
        ∃ p, it.price_cents = some p ∧ thresh ≤ p) ∧
    Color.all true = ["W", "U", "B", "R", "G", "C", "L"] := by
  refine ⟨?_, Color.all_true_eq⟩
  rw [mem_bucketRows]
  simp only [if_pos rfl, passesThreshold_iff, Color.all_true_eq]
  constructor
  · rintro ⟨h1, h2, h3⟩
    exact ⟨h1, by simpa using h3, h2⟩
  · rintro ⟨h1, h2, h3⟩
    exact ⟨h1, h3, by simpa using h2⟩

/-- Witness for claim_multicolor_exclusion at a concrete two-letter color item. -/
theorem claim_multicolor_exclusion_witness :
    ((⟨1, "x", 9, some 100, "en", none, "WU"⟩ : Item) ∈
        bucketRows [⟨1, "x", 9, some 100, "en", none, "WU"⟩] 0 Color.MULTICOLOR ↔
      (⟨1, "x", 9, some 100, "en", none, "WU"⟩ : Item) ∈
          [(⟨1, "x", 9, some 100, "en", none, "WU"⟩ : Item)] ∧
        (⟨1, "x", 9, some 100, "en", none, "WU"⟩ : Item).mtg_card_colors ∉
          (["W", "U", "B", "R", "G", "C", "L"] : List String) ∧
        ∃ p, (⟨1, "x", 9, some 100, "en", none, "WU"⟩ : Item).price_cents = some p ∧
          0 ≤ p) ∧
    Color.all true = ["W", "U", "B", "R", "G", "C", "L"] :=
  claim_multicolor_exclusion [⟨1, "x", 9, some 100, "en", none, "WU"⟩] 0
    ⟨1, "x", 9, some 100, "en", none, "WU"⟩

/-- Claim C5: with all eight categories enabled, every normalized item whose
price passes the threshold lies in exactly one of the eight buckets: the bucket
whose code equals its color code when a non-MULTICOLOR category matches, and
the MULTICOLOR bucket otherwise. -/
theorem claim_partition_exactly_one (raws : List RawRecord) (thresh : Nat)
    (it : Item) (hit : it ∈ normalizeRecords raws) (p : Nat)
    (hp : it.price_cents = some p) (hge : thresh ≤ p) :
    ∃ c : Color, it ∈ bucketRows (normalizeRecords raws) thresh c ∧
      (∀ d : Color, it ∈ bucketRows (normalizeRecords raws) thresh d → d = c) ∧
      ((c ≠ Color.MULTICOLOR ∧ c.code = it.mtg_card_colors) ∨
        (c = Color.MULTICOLOR ∧
          ¬ ∃ d : Color, d ≠ Color.MULTICOLOR ∧ d.code = it.mtg_card_colors)) := by
  have hpass : passesThreshold it thresh = true :=
    passesThreshold_iff.mpr ⟨p, hp, hge⟩
  by_cases hseven :
      it.mtg_card_colors ∈ (["W", "U", "B", "R", "G", "C", "L"] : List String)
  · obtain ⟨c, hcm, hcode⟩ := (mem_seven_iff _).mp hseven
    refine ⟨c, ?_, ?_, Or.inl ⟨hcm, hcode⟩⟩
    · rw [mem_bucketRows]
      refine ⟨hit, hpass, ?_⟩
      rw [if_neg hcm]
      exact hcode.symm
    · intro d hd
      rw [mem_bucketRows] at hd
      obtain ⟨-, -, hcond⟩ := hd
      by_cases hdm : d = Color.MULTICOLOR
      · rw [if_pos hdm] at hcond
        rw [Color.all_true_eq] at hcond
        simp at hcond
        simp only [List.mem_cons, List.not_mem_nil, or_false] at hseven
        tauto
      · rw [if_neg hdm] at hcond
        exact Color.code_inj d c (hcond.symm.trans hcode.symm)
  · refine ⟨Color.MULTICOLOR, ?_, ?_, Or.inr ⟨rfl, ?_⟩⟩
    · rw [mem_bucketRows]
      refine ⟨hit, hpass, ?_⟩
      rw [if_pos rfl, Color.all_true_eq]
      simpa using hseven
    · intro d hd
      rw [mem_bucketRows] at hd
      obtain ⟨-, -, hcond⟩ := hd
      by_cases hdm : d = Color.MULTICOLOR
      · exact hdm
      · rw [if_neg hdm] at hcond
        exact absurd ((mem_seven_iff _).mpr ⟨d, hdm, hcond.symm⟩) hseven
    · rintro ⟨d, hdm, hdc⟩
      exact hseven ((mem_seven_iff _).mpr ⟨d, hdm, hdc⟩)

/-- Witness for claim_partition_exactly_one at a concrete white-color record. -/
theorem claim_partition_exactly_one_witness :
    ∃ c : Color, toItem rA "w" ∈ bucketRows (normalizeRecords [rA]) 0 c ∧
      (∀ d : Color, toItem rA "w" ∈ bucketRows (normalizeRecords [rA]) 0 d → d = c) ∧
      ((c ≠ Color.MULTICOLOR ∧ c.code = (toItem rA "w").mtg_card_colors) ∨
        (c = Color.MULTICOLOR ∧
          ¬ ∃ d : Color, d ≠ Color.MULTICOLOR ∧
            d.code = (toItem rA "w").mtg_card_colors)) :=
  claim_partition_exactly_one [rA] 0 (toItem rA "w") (by decide) 500 (by decide)
    (by decide)

/-- Claim C1 counterexample: two items sharing blueprint_id 42 in the WHITE
bucket cause two external lookups of id 42 inside one run: the trace of
external calls performed by the run contains 42 twice, refuting "at most one
external lookup per distinct blueprint_id per run". -/
theorem claim_memoization_cex :
    (run (get_config "t" 0 ["W"]) lookupA expTableA [rA, rB]).2.count 42 = 2 ∧
    ¬ (run (get_config "t" 0 ["W"]) lookupA expTableA [rA, rB]).2.count 42 ≤ 1 := by
  constructor
  · decide
  · decide

/-- Claim C1 (amended): `get_expansion` has no cache: a successful run performs
exactly one external blueprint lookup per processed bucket row, so a blueprint
id occurring in N processed rows is looked up N times; the trace of external
calls is exactly the concatenation of the per-color blueprint-id columns. -/
theorem claim_no_memoization_amended (config : Config) (lookup : Nat → Option Nat)
    (expansions : Nat → Option String) (raws : List RawRecord)
    (reps : List CategoryReport) (tr : List Nat)
    (h : run config lookup expansions raws = (some reps, tr)) (b : Nat) :
    tr.count b = (config.colors.map (fun c =>
      ((bucketRows (normalizeRecords raws) config.price_cents_threshold c).map
        (fun it => it.blueprint_id)).count b)).sum := by
  have h2 : processColors (normalizeRecords raws) config.price_cents_threshold
      lookup expansions config.colors = (some reps, tr) := h
  obtain ⟨-, htr⟩ := processColors_spec h2
  rw [htr, List.count_flatten, List.map_map]
  rfl

/-- Witness for claim_no_memoization_amended at the concrete duplicated-id run. -/
theorem claim_no_memoization_amended_witness :
    ([42, 42] : List Nat).count 42 = ((get_config "t" 0 ["W"]).colors.map (fun c =>
      ((bucketRows (normalizeRecords [rA, rB])
          (get_config "t" 0 ["W"]).price_cents_threshold c).map
        (fun it => it.blueprint_id)).count 42)).sum :=
  claim_no_memoization_amended (get_config "t" 0 ["W"]) lookupA expTableA [rA, rB]
    [⟨Color.WHITE, [(toItem rA "w", "Alpha"), (toItem rB "W", "Alpha")], 2, 800⟩]
    [42, 42] (by decide) 42

/-- Claim C8: records with a missing/null color cell are dropped silently by the
dropna of line 133 — normalization is a total function, there is no error path —
and every item of the normalized output (and of every bucket over it) stems from
a record whose color cell was present, so no null color code appears downstream. -/
theorem claim_null_color_dropped (raws : List RawRecord) (thresh : Nat)
    (c : Color) (it : Item)
    (h : it ∈ normalizeRecords raws ∨
      it ∈ bucketRows (normalizeRecords raws) thresh c) :
    ∃ r ∈ raws, ∃ cc, r.mtg_card_colors = some cc ∧ it = toItem r cc := by
  have hmem : it ∈ normalizeRecords raws := by
    rcases h with h | h
    · exact h
    · exact (mem_bucketRows.mp h).1
  exact mem_normalizeRecords.mp hmem

/-- Witness for claim_null_color_dropped at a concrete normalized item. -/
theorem claim_null_color_dropped_witness :
    ∃ r ∈ [rA, rNoFoil], ∃ cc, r.mtg_card_colors = some cc ∧
      toItem rNoFoil "G" = toItem r cc :=
  claim_null_color_dropped [rA, rNoFoil] 0 Color.GREEN (toItem rNoFoil "G")
    (Or.inl (by decide))

/-- Claim C7 counterexample: an input containing a record with no price_cents
value does not abort: the pipeline has no validation step and no ValidationError
type exists in the source; the run over such an input completes and produces a
CategoryReport. -/
theorem claim_validation_error_cex :
    rNoPrice.price_cents = none ∧
    ((run (get_config "t" 0 ["W"]) lookupA expTableA [rA, rNoPrice]).1).map
        List.length = some 1 ∧
    (run (get_config "t" 0 ["W"]) lookupA expTableA [rA, rNoPrice]).1 ≠ none := by
  refine ⟨rfl, by decide, by decide⟩

/-- Claim C7 (amended): a record whose price is missing is not an error: it
survives normalization with a NaN price, and the NaN price fails every
threshold comparison, so such an item is excluded from every category bucket
while the run continues and produces its reports. -/
theorem claim_missing_price_excluded_amended (items : List Item) (thresh : Nat)
    (c : Color) (it : Item) (h : it.price_cents = none) :
    it ∉ bucketRows items thresh c := by
  intro hmem
  obtain ⟨-, hpass, -⟩ := mem_bucketRows.mp hmem
  rw [passesThreshold_iff] at hpass
  obtain ⟨p, hp, -⟩ := hpass
  rw [h] at hp
  exact Option.noConfusion hp

/-- Witness for claim_missing_price_excluded_amended at the priceless record. -/
theorem claim_missing_price_excluded_amended_witness :
    toItem rNoPrice "U" ∉ bucketRows [toItem rNoPrice "U"] 0 Color.BLUE :=
  claim_missing_price_excluded_amended [toItem rNoPrice "U"] 0 Color.BLUE
    (toItem rNoPrice "U") rfl

/-- Claim C6 at the failing input: per-bucket aggregates are the exact integer
row count and price_cents sum ((1, 1) and (1, 2) here), and the exact grand
totals the claim requires are (2 items, 3 cents).  The source keeps the
per-bucket sums as integers but accumulates the grand value as binary
floating-point euros (total_value += sum / 100, lines 155 and 189), where
0.01 + 0.02 is not exactly 0.03, so the cent-exactness the claim asserts for
the grand value does not hold in the code. -/
theorem claim_aggregates_at_failing_input :
    ((run (get_config "t" 0 ["W", "U"]) lookupA expTableA [rW1, rU2]).1).map
        (fun reps => reps.map (fun rep => (rep.item_count, rep.total_value_cents))) =
      some [(1, 1), (1, 2)] ∧
    ((run (get_config "t" 0 ["W", "U"]) lookupA expTableA [rW1, rU2]).1).map
        (fun reps => (grandTotalItems reps, exactGrandValueCents reps)) =
      some (2, 3) := by
  constructor
  · decide
  · decide
